import Mathlib

/-!
Shallow embedding of the carbon-footprint calculator (`src/App.tsx`,
`src/constants.tsx`, `src/types.ts`).

Numbers entered and computed by the application are modelled as rationals
(`ℚ`).  The JavaScript idiom `x || d` on numbers (which yields `d` when `x`
is `0`) is modelled by `jsOr`.  `Number(x).toFixed(4)` followed by `Number`
is modelled by `round4`, rounding to four decimal digits with ties away
from zero.

Identifiers produced by `Date.now()` are modelled as naturals.  The unset
material reference (the empty-string sentinel `''` of
`TransportEntry.materialId`, and the `0` produced by `Number('')` when the
placeholder option is chosen) is modelled as `none : Option ℕ`; a set
reference is `some id`.
-/

/-- JS `x || d` for numeric `x`: `0` is falsy, anything else is kept. -/
def jsOr (x d : ℚ) : ℚ := if x = 0 then d else x

/-- `Number(v.toFixed(4))`: round to 4 decimal digits, ties away from zero. -/
def round4 (q : ℚ) : ℚ :=
  if 0 ≤ q then ((⌊q * 10000 + 1/2⌋ : ℤ) : ℚ) / 10000
  else -(((⌊(-q) * 10000 + 1/2⌋ : ℤ) : ℚ) / 10000)

/-- `MaterialDBItem` of `src/types.ts`. -/
structure MaterialDBItem where
  id : String
  name : String
  factor : ℚ
  unit1 : String
  unit2 : String

/-- `MaterialEntry` of `src/types.ts`. -/
structure MaterialEntry where
  id : ℕ
  name : String
  weight : ℚ
  factorId : String
  customFactor : ℚ
  useDb : Bool

/-- `TransportEntry` of `src/types.ts`; `materialId = none` is the unset reference. -/
structure TransportEntry where
  id : ℕ
  materialId : Option ℕ
  weight : ℚ
  distance : ℚ
  vehicleId : String

/-- The `mode` field of `Product.manufacturing`. -/
inductive MfgMode where
  | perUnit
  | totalAllocated
deriving DecidableEq

/-- The `manufacturing` record of `Product`. -/
structure Manufacturing where
  mode : MfgMode
  electricityUsage : ℚ
  totalOutput : ℚ

/-- The `downstreamTransport` record of `Product`. -/
structure DownstreamTransport where
  weight : ℚ
  distance : ℚ
  vehicleId : String

/-- `Product` of `src/types.ts`. -/
structure Product where
  id : ℕ
  name : String
  year : ℕ
  hasFullData : Bool
  totalOverride : ℚ
  materials : List MaterialEntry
  upstreamTransport : List TransportEntry
  manufacturing : Manufacturing
  downstreamTransport : DownstreamTransport

/-- `Contract` of `src/types.ts`. -/
structure Contract where
  id : ℕ
  name : String
  products : List Product

/-- `CalculationResult` of `src/types.ts`. -/
structure CalculationResult where
  A : ℚ
  B : ℚ
  C : ℚ
  D : ℚ
  total : ℚ

/-- `ELECTRICITY_FACTORS` of `src/constants.tsx` (year ↦ factor). -/
def ELECTRICITY_FACTORS : List (ℕ × ℚ) :=
  [(2023, 0.495), (2024, 0.494), (2025, 0.474), (2026, 0.455)]

/-- One row of `TRANSPORT_FACTORS` of `src/constants.tsx`. -/
structure TransportFactor where
  id : String
  name : String
  factor : ℚ
  unit : String

/-- `TRANSPORT_FACTORS` of `src/constants.tsx`. -/
def TRANSPORT_FACTORS : List TransportFactor :=
  [⟨"t1", "大貨車 (柴油)", 0.131, "kgCO2e/t-km"⟩,
   ⟨"t2", "小貨車 (柴油)", 0.587, "kgCO2e/t-km"⟩,
   ⟨"t3", "小貨車 (汽油)", 0.683, "kgCO2e/t-km"⟩,
   ⟨"t4", "國際海運貨物運輸服務", 1.98, "kgCO2e/t-km"⟩,
   ⟨"t5", "國際航運", 1.16, "kgCO2e/t-km"⟩]

/-- `INITIAL_MATERIAL_DB` of `src/constants.tsx`. -/
def INITIAL_MATERIAL_DB : List MaterialDBItem :=
  [⟨"m1", "鋁合金 (Aluminum)", 6.7, "kgCO2e", "kg"⟩,
   ⟨"m2", "不鏽鋼 (Stainless Steel)", 6.1, "kgCO2e", "kg"⟩,
   ⟨"m3", "銅 (Copper)", 3.8, "kgCO2e", "kg"⟩]

/-- `ELECTRICITY_FACTORS[year] || 0.495` (App.tsx line 289); a missing year
reads as `undefined`, hence the `getD 0` before the `||`. -/
def electricityFactor (year : ℕ) : ℚ :=
  jsOr (((ELECTRICITY_FACTORS.find? (fun e => e.1 == year)).map Prod.snd).getD 0) 0.495

/-- `m.useDb ? (materialDB.find(db => db.id === m.factorId)?.factor || 0) :
Number(m.customFactor)` (App.tsx line 278).  `x || 0` is the identity on
numbers (`0 || 0` is `0`), so the `||` collapses into the `getD 0` of the
optional-chaining read. -/
def materialFactor (db : List MaterialDBItem) (m : MaterialEntry) : ℚ :=
  if m.useDb then ((db.find? (fun d => d.id == m.factorId)).map MaterialDBItem.factor).getD 0
  else m.customFactor

/-- `TRANSPORT_FACTORS.find(vf => vf.id === v)?.factor || 0` (App.tsx lines
284, 296); `x || 0` is the identity on numbers, as for `materialFactor`. -/
def vehicleFactor (v : String) : ℚ :=
  ((TRANSPORT_FACTORS.find? (fun tf => tf.id == v)).map TransportFactor.factor).getD 0

/-- The `A` accumulation loop of `calculation` (App.tsx lines 276-280). -/
def rawA (db : List MaterialDBItem) (ms : List MaterialEntry) : ℚ :=
  ms.foldl (fun acc m => acc + m.weight * materialFactor db m) 0

/-- The `B` accumulation loop of `calculation` (App.tsx lines 282-286). -/
def rawB (ts : List TransportEntry) : ℚ :=
  ts.foldl (fun acc t => acc + t.weight / 1000 * t.distance * vehicleFactor t.vehicleId) 0

/-- The `C` computation of `calculation` (App.tsx lines 288-292). -/
def rawC (p : Product) : ℚ :=
  let eFactor := electricityFactor p.year
  match p.manufacturing.mode with
  | .perUnit => p.manufacturing.electricityUsage * eFactor
  | .totalAllocated => p.manufacturing.electricityUsage / jsOr p.manufacturing.totalOutput 1 * eFactor

/-- The `D` computation of `calculation` (App.tsx lines 294-297). -/
def rawD (p : Product) : ℚ :=
  p.downstreamTransport.weight / 1000 * p.downstreamTransport.distance *
    vehicleFactor p.downstreamTransport.vehicleId

/-- `calculation` of App.tsx (lines 272-306) for a present active product. -/
def calculation (db : List MaterialDBItem) (p : Product) : CalculationResult :=
  if p.hasFullData then ⟨0, 0, 0, 0, p.totalOverride⟩
  else
    let A := rawA db p.materials
    let B := rawB p.upstreamTransport
    let C := rawC p
    let D := rawD p
    ⟨round4 A, round4 B, round4 C, round4 D, round4 (A + B + C + D)⟩

/-- One entry of the `transportValidation` record (App.tsx lines 255-270). -/
structure TransportStatus where
  isValid : Bool
  msg : String
  diff : ℚ

/-- The `weightInB` sum of `transportValidation` (App.tsx lines 259-261). -/
def transportWeightFor (p : Product) (mid : ℕ) : ℚ :=
  (p.upstreamTransport.filter (fun t => t.materialId == some mid)).foldl
    (fun sum t => sum + t.weight) 0

/-- `transportValidation` of App.tsx (lines 255-270), as the list of
(material id, status) pairs built by the `forEach` loop. -/
def transportValidation (p : Product) : List (ℕ × TransportStatus) :=
  p.materials.map (fun m =>
    let diff := transportWeightFor p m.id - m.weight
    (m.id, ⟨decide (diff ≥ -0.001),
            if diff < -0.001 then "運輸重量低於原料重量" else "OK",
            diff⟩))

/-!
State-machine embedding of the operations on the active product that touch
materials and upstream transport (App.tsx `addMaterial`, `deleteMaterial`,
the add / edit / delete handlers of the upstream-transport table).
-/

/-- Replace the element at `idx` by `f` of it, as `trans[index] = {...trans[index], ...}`. -/
def updateAt {α : Type} : ℕ → (α → α) → List α → List α
  | _, _, [] => []
  | 0, f, x :: xs => f x :: xs
  | n+1, f, x :: xs => x :: updateAt n f xs

/-- A fresh material row, as built by `addMaterial` (App.tsx line 197). -/
def newMaterial (newId : ℕ) : MaterialEntry :=
  ⟨newId, "", 0, "", 0, true⟩

/-- Operations on the active product.  `deleteMaterial idx` bundles the
index/id pair the UI passes to App.tsx's `deleteMaterial` (the id of the row
at `idx`); `setTransportMaterial` is `updateNested('upstreamTransport', idx,
'materialId', v)`, whose `v` the select restricts to the placeholder or a
present material. -/
inductive ProductOp where
  | addMaterial (newId : ℕ)
  | deleteMaterial (idx : ℕ)
  | addTransport (newId : ℕ)
  | deleteTransport (idx : ℕ)
  | setTransportMaterial (idx : ℕ) (v : Option ℕ)
  | setTransportWeight (idx : ℕ) (w : ℚ)
  | setTransportDistance (idx : ℕ) (d : ℚ)
  | setTransportVehicle (idx : ℕ) (v : String)

/-- One step of the product-level state machine (App.tsx lines 195-221,
697, 708-713, 223-251). -/
def step (p : Product) : ProductOp → Product
  | .addMaterial newId =>
    { p with materials := p.materials ++ [newMaterial newId] }
  | .deleteMaterial idx =>
    match p.materials[idx]? with
    | some m =>
      { p with materials := p.materials.eraseIdx idx,
               upstreamTransport := p.upstreamTransport.filter
                 (fun t => t.materialId != some m.id) }
    | none => p
  | .addTransport newId =>
    { p with upstreamTransport := p.upstreamTransport ++
        [⟨newId, p.materials.head?.map MaterialEntry.id, 0, 0, "t1"⟩] }
  | .deleteTransport idx =>
    { p with upstreamTransport := p.upstreamTransport.eraseIdx idx }
  | .setTransportMaterial idx v =>
    { p with upstreamTransport := updateAt idx (fun t => { t with materialId := v }) p.upstreamTransport }
  | .setTransportWeight idx w =>
    { p with upstreamTransport := updateAt idx (fun t => { t with weight := w }) p.upstreamTransport }
  | .setTransportDistance idx d =>
    { p with upstreamTransport := updateAt idx (fun t => { t with distance := d }) p.upstreamTransport }
  | .setTransportVehicle idx v =>
    { p with upstreamTransport := updateAt idx (fun t => { t with vehicleId := v }) p.upstreamTransport }

/-- A material reference is acceptable against a material list when it is
unset or names a material of the list. -/
def refValueOK (ms : List MaterialEntry) : Option ℕ → Bool
  | none => true
  | some mid => ms.any (fun m => m.id == mid)

/-- The referential invariant: every transport row's material reference is
unset or names a material present in the product. -/
def refOK (p : Product) : Bool :=
  p.upstreamTransport.all (fun t => refValueOK p.materials t.materialId)

/-- The UI constraint on an operation: the material select of a transport
row offers only the placeholder and the product's current materials. -/
def validOp (p : Product) : ProductOp → Bool
  | .setTransportMaterial _ v => refValueOK p.materials v
  | _ => true

/-- Apply a sequence of product operations. -/
def applyOps (p : Product) : List ProductOp → Product
  | [] => p
  | op :: ops => applyOps (step p op) ops

/-- Every operation of the sequence is valid in the state it runs in. -/
def validOps (p : Product) : List ProductOp → Bool
  | [] => true
  | op :: ops => validOp p op && validOps (step p op) ops

/-!
Contract-level state and operations (App.tsx `addContract`, `deleteContract`).
-/

/-- The contract-related part of the App state. -/
structure AppState where
  contracts : List Contract
  activeContractId : ℕ
  activeProductId : Option ℕ

/-- `addContract` (App.tsx lines 128-133); `newId` models `Date.now()`. -/
def addContract (s : AppState) (newId : ℕ) : AppState :=
  { contracts := s.contracts ++ [⟨newId, "新契約草稿", []⟩],
    activeContractId := newId,
    activeProductId := none }

/-- `deleteContract` (App.tsx lines 135-154), after the user confirms.  The
source reads `newContracts[0].id`, which presupposes a nonempty remainder;
the `getD 0` totalises that read. -/
def deleteContract (s : AppState) (cid : ℕ) : AppState :=
  if s.contracts.length ≤ 1 then s
  else
    let newContracts := s.contracts.filter (fun c => c.id != cid)
    if s.activeContractId = cid then
      { contracts := newContracts,
        activeContractId := ((newContracts.head?).map Contract.id).getD 0,
        activeProductId := none }
    else { s with contracts := newContracts }

/-- Contract-list operations. -/
inductive ContractOp where
  | add (newId : ℕ)
  | delete (cid : ℕ)

/-- One step of the contract-level state machine. -/
def stepContract (s : AppState) : ContractOp → AppState
  | .add newId => addContract s newId
  | .delete cid => deleteContract s cid

/-- Apply a sequence of contract operations. -/
def applyContractOps (s : AppState) : List ContractOp → AppState
  | [] => s
  | op :: ops => applyContractOps (stepContract s op) ops

/-- `Date.now()` freshness: an added contract id is not already in use. -/
def validContractOp (s : AppState) : ContractOp → Prop
  | .add newId => newId ∉ s.contracts.map Contract.id
  | .delete _ => True

/-- Every operation of the sequence is valid in the state it runs in. -/
def validContractOps : AppState → List ContractOp → Prop
  | _, [] => True
  | s, op :: ops => validContractOp s op ∧ validContractOps (stepContract s op) ops

/-- The contract-list invariant: nonempty, with pairwise distinct ids. -/
def contractsOK (s : AppState) : Prop :=
  s.contracts ≠ [] ∧ (s.contracts.map Contract.id).Nodup

/-!
Spec-side definitions (for refinement comparison) and concrete inputs.
-/

/-- Modelled from the spec: the C stage formula as the spec words it, with
`max(totalOutput, 1)` as the divisor in `totalAllocated` mode.  For
comparison with `rawC`, which embeds the source. -/
def specC (p : Product) : ℚ :=
  let eFactor := electricityFactor p.year
  match p.manufacturing.mode with
  | .perUnit => p.manufacturing.electricityUsage * eFactor
  | .totalAllocated => p.manufacturing.electricityUsage / max p.manufacturing.totalOutput 1 * eFactor

/-- Double the weight of every material entry, keeping all factors fixed. -/
def doubleWeights (ms : List MaterialEntry) : List MaterialEntry :=
  ms.map (fun m => { m with weight := 2 * m.weight })

/-- A product with no entries in any of the four categories. -/
def baseProduct : Product :=
  { id := 1, name := "", year := 2024, hasFullData := false, totalOverride := 0,
    materials := [], upstreamTransport := [],
    manufacturing := ⟨.perUnit, 0, 1000⟩,
    downstreamTransport := ⟨0, 0, "t1"⟩ }

/-- A `totalAllocated` product whose batch output is one half. -/
def pHalfOutput : Product :=
  { baseProduct with manufacturing := ⟨.totalAllocated, 1, 1/2⟩ }

/-- A product whose A and D stages each contribute 0.00006 kgCO2e. -/
def pTinySplit : Product :=
  { baseProduct with materials := [⟨1, "", 1, "", 0.00006, false⟩],
                     downstreamTransport := ⟨1000, 6/13100, "t1"⟩ }

/-- A product whose single material contributes 0.00006 kgCO2e to A. -/
def pTinyA : Product :=
  { baseProduct with materials := [⟨1, "", 1, "", 0.00006, false⟩] }

/-- A product with the override flag set and nonempty entry lists. -/
def pOverride : Product :=
  { baseProduct with hasFullData := true, totalOverride := 42.5,
                     materials := [⟨1, "x", 10, "m1", 3, true⟩],
                     upstreamTransport := [⟨2, some 1, 5, 7, "t2"⟩],
                     manufacturing := ⟨.totalAllocated, 9, 0⟩,
                     downstreamTransport := ⟨100, 8, "t3"⟩ }

/-- A material row of ten kilograms of the database material `m1`. -/
def mat1 : MaterialEntry := ⟨1, "", 10, "m1", 0, true⟩

/-- A product with one material and one upstream transport row. -/
def pFull : Product :=
  { baseProduct with materials := [mat1],
                     upstreamTransport := [⟨2, some 1, 1000, 100, "t1"⟩],
                     manufacturing := ⟨.perUnit, 2, 1000⟩,
                     downstreamTransport := ⟨500, 20, "t2"⟩ }

/-- A product with one material (id 5) and one transport row referencing it. -/
def p6 : Product :=
  { baseProduct with materials := [⟨5, "", 3, "m1", 0, true⟩],
                     upstreamTransport := [⟨9, some 5, 3, 10, "t1"⟩] }

/-- A sequence exercising every product operation from `p6`. -/
def ops6 : List ProductOp :=
  [.addTransport 11, .setTransportMaterial 1 (some 5), .addMaterial 7,
   .setTransportWeight 0 2, .setTransportDistance 1 40, .setTransportVehicle 1 "t4",
   .setTransportMaterial 0 none, .deleteMaterial 0, .deleteTransport 0,
   .addTransport 13, .setTransportMaterial 1 (some 7)]

/-- The initial contract state (App.tsx lines 54-58). -/
def s9 : AppState := ⟨[⟨1, "年度採購主合約", []⟩], 1, none⟩

/-- A state with two contracts, the first one active. -/
def sTwo : AppState := ⟨[⟨1, "a", []⟩, ⟨2, "b", []⟩], 1, none⟩

/-- A sequence of contract additions and deletions from `s9`. -/
def ops9 : List ContractOp :=
  [.add 5, .delete 1, .add 9, .delete 9, .delete 5, .delete 5]

/-- Decidability of `validContractOp`, for concrete evaluation. -/
instance (s : AppState) : (op : ContractOp) → Decidable (validContractOp s op)
  | .add newId => inferInstanceAs (Decidable (newId ∉ s.contracts.map Contract.id))
  | .delete _ => inferInstanceAs (Decidable True)

/-- Decidability of `validContractOps`, for concrete evaluation. -/
instance decValidContractOps : (s : AppState) → (ops : List ContractOp) → Decidable (validContractOps s ops)
  | _, [] => .isTrue trivial
  | s, op :: ops =>
    have : Decidable (validContractOps (stepContract s op) ops) := decValidContractOps _ _
    inferInstanceAs (Decidable (_ ∧ _))

/-!
Helper lemmas.
-/

lemma foldl_add_map {α : Type} (f : α → ℚ) (l : List α) : ∀ q : ℚ,
    l.foldl (fun acc x => acc + f x) q = q + (l.map f).sum := by
  induction l with
  | nil => intro q; simp
  | cons x xs ih => intro q; simp [ih, add_assoc]

lemma rawA_eq_sum (db : List MaterialDBItem) (ms : List MaterialEntry) :
    rawA db ms = (ms.map (fun m => m.weight * materialFactor db m)).sum := by
  simpa using foldl_add_map (fun m => m.weight * materialFactor db m) ms 0

lemma rawB_eq_sum (ts : List TransportEntry) :
    rawB ts = (ts.map (fun t => t.weight / 1000 * t.distance * vehicleFactor t.vehicleId)).sum := by
  simpa using foldl_add_map (fun t => t.weight / 1000 * t.distance * vehicleFactor t.vehicleId) ts 0

lemma transportWeightFor_eq_sum (p : Product) (mid : ℕ) :
    transportWeightFor p mid =
      ((p.upstreamTransport.filter (fun t => t.materialId == some mid)).map TransportEntry.weight).sum := by
  simpa [transportWeightFor] using
    foldl_add_map TransportEntry.weight (p.upstreamTransport.filter (fun t => t.materialId == some mid)) 0

/-!
C2 — rounding of the five output fields.
-/

/-- C2 (amended): with the override flag unset, each of the five fields of
the `CalculationResult` is rounded to 4 decimal digits, and the reported
total is the rounding of the sum of the unrounded subtotals — not the sum
of the rounded subtotals. -/
theorem calc_rounding_amended (db : List MaterialDBItem) (p : Product)
    (h : p.hasFullData = false) :
    (calculation db p).A = round4 (rawA db p.materials) ∧
    (calculation db p).B = round4 (rawB p.upstreamTransport) ∧
    (calculation db p).C = round4 (rawC p) ∧
    (calculation db p).D = round4 (rawD p) ∧
    (calculation db p).total =
      round4 (rawA db p.materials + rawB p.upstreamTransport + rawC p + rawD p) := by
  simp [calculation, h]

/-- C2 (witness): the amended statement at `pTinySplit`. -/
theorem calc_rounding_amended_witness :
    pTinySplit.hasFullData = false ∧
    (calculation INITIAL_MATERIAL_DB pTinySplit).total =
      round4 (rawA INITIAL_MATERIAL_DB pTinySplit.materials + rawB pTinySplit.upstreamTransport +
        rawC pTinySplit + rawD pTinySplit) :=
  ⟨rfl, (calc_rounding_amended INITIAL_MATERIAL_DB pTinySplit rfl).2.2.2.2⟩

/-- C2 (counterexample): at `pTinySplit` the reported total differs from the
sum of the reported rounded subtotals: A and D each round 0.00006 up to
0.0001, while the total rounds 0.00012 down to 0.0001 ≠ 0.0002. -/
theorem calc_total_claim_counterexample :
    (calculation INITIAL_MATERIAL_DB pTinySplit).total ≠
      (calculation INITIAL_MATERIAL_DB pTinySplit).A + (calculation INITIAL_MATERIAL_DB pTinySplit).B +
      (calculation INITIAL_MATERIAL_DB pTinySplit).C + (calculation INITIAL_MATERIAL_DB pTinySplit).D := by
  norm_num [calculation, pTinySplit, baseProduct, rawA, rawB, rawC, rawD, materialFactor,
    vehicleFactor, electricityFactor, ELECTRICITY_FACTORS, TRANSPORT_FACTORS, List.find?,
    jsOr, round4]

/-!
C3 — the override branch.
-/

/-- C3: with the override flag set, the calculator returns
`A = B = C = D = 0` and `total` equal to the override value, whatever the
entry lists, manufacturing record and downstream record hold. -/
theorem calc_override_spec (db : List MaterialDBItem) (p : Product)
    (h : p.hasFullData = true) :
    calculation db p = ⟨0, 0, 0, 0, p.totalOverride⟩ := by
  simp [calculation, h]

/-- C3 (witness): the override branch at `pOverride`, whose entry lists are
nonempty. -/
theorem calc_override_spec_witness :
    pOverride.hasFullData = true ∧
    calculation INITIAL_MATERIAL_DB pOverride = ⟨0, 0, 0, 0, 42.5⟩ :=
  ⟨rfl, (calc_override_spec INITIAL_MATERIAL_DB pOverride rfl).trans rfl⟩

/-!
C8 — zero entries give total 0.
-/

/-- C8: with the override flag unset, empty material and upstream lists,
zero electricity usage and a zero-weight, zero-distance downstream record,
the reported total is 0. -/
theorem zero_entries_total (db : List MaterialDBItem) (p : Product)
    (h : p.hasFullData = false) (hm : p.materials = [])
    (ht : p.upstreamTransport = []) (hu : p.manufacturing.electricityUsage = 0)
    (hw : p.downstreamTransport.weight = 0) (_hd : p.downstreamTransport.distance = 0) :
    (calculation db p).total = 0 := by
  have hC : rawC p = 0 := by
    cases hmode : p.manufacturing.mode <;> simp [rawC, hmode, hu]
  have hD : rawD p = 0 := by simp [rawD, hw]
  simp [calculation, h, hm, ht, rawA, rawB, hC, hD]
  norm_num [round4]

/-- C8 (witness): the zero product `baseProduct`. -/
theorem zero_entries_total_witness :
    baseProduct.hasFullData = false ∧ baseProduct.materials = [] ∧
    baseProduct.upstreamTransport = [] ∧ baseProduct.manufacturing.electricityUsage = 0 ∧
    baseProduct.downstreamTransport.weight = 0 ∧ baseProduct.downstreamTransport.distance = 0 ∧
    (calculation INITIAL_MATERIAL_DB baseProduct).total = 0 :=
  ⟨rfl, rfl, rfl, rfl, rfl, rfl,
    zero_entries_total INITIAL_MATERIAL_DB baseProduct rfl rfl rfl rfl rfl rfl⟩

/-!
C4 — the A subtotal.
-/

/-- C4: with the override flag unset, A is (the 4-digit rounding of) the sum
over material rows of weight × factor, the factor being the custom one when
`useDb` is false and otherwise the database row found by `factorId`,
defaulting to 0 when absent; a row of weight 10 with factor 6.7 contributes
67. -/
theorem calc_A_spec (db : List MaterialDBItem) (p : Product)
    (h : p.hasFullData = false) :
    (calculation db p).A = round4 ((p.materials.map (fun m => m.weight * materialFactor db m)).sum) ∧
    (∀ m : MaterialEntry, m.useDb = false → materialFactor db m = m.customFactor) ∧
    (∀ m : MaterialEntry, m.useDb = true → (∀ d ∈ db, d.id ≠ m.factorId) →
      materialFactor db m = 0) ∧
    rawA INITIAL_MATERIAL_DB [⟨1, "", 10, "m1", 0, true⟩] = 67 := by
  refine ⟨by simp [calculation, h, rawA_eq_sum], ?_, ?_, ?_⟩
  · intro m hm; simp [materialFactor, hm]
  · intro m hm hnone
    have hfind : db.find? (fun d => d.id == m.factorId) = none :=
      List.find?_eq_none.mpr (fun d hd => by simpa using hnone d hd)
    simp [materialFactor, hm, hfind]
  · norm_num [rawA, materialFactor, INITIAL_MATERIAL_DB, List.find?]

/-- C4 (witness): the statement at `pFull` over the initial database. -/
theorem calc_A_spec_witness :
    pFull.hasFullData = false ∧
    (calculation INITIAL_MATERIAL_DB pFull).A =
      round4 ((pFull.materials.map (fun m => m.weight * materialFactor INITIAL_MATERIAL_DB m)).sum) :=
  ⟨rfl, (calc_A_spec INITIAL_MATERIAL_DB pFull rfl).1⟩

/-!
C5 — the B and D transport terms.
-/

/-- C5: with the override flag unset, every transport contribution is
(weight/1000) × distance × vehicle factor, the factor defaulting to 0 for an
unknown vehicle id; B sums the term over the upstream rows and D applies it
to the downstream record; an upstream row (1000 kg, 100 km, factor 0.131)
contributes 13.1. -/
theorem calc_B_D_spec (db : List MaterialDBItem) (p : Product)
    (h : p.hasFullData = false) :
    (calculation db p).B =
      round4 ((p.upstreamTransport.map (fun t => t.weight / 1000 * t.distance * vehicleFactor t.vehicleId)).sum) ∧
    (calculation db p).D =
      round4 (p.downstreamTransport.weight / 1000 * p.downstreamTransport.distance *
        vehicleFactor p.downstreamTransport.vehicleId) ∧
    (∀ v : String, (∀ tf ∈ TRANSPORT_FACTORS, tf.id ≠ v) → vehicleFactor v = 0) ∧
    rawB [⟨1, none, 1000, 100, "t1"⟩] = 13.1 := by
  refine ⟨by simp [calculation, h, rawB_eq_sum], by simp [calculation, h, rawD], ?_, ?_⟩
  · intro v hv
    have hfind : TRANSPORT_FACTORS.find? (fun tf => tf.id == v) = none :=
      List.find?_eq_none.mpr (fun tf htf => by simpa using hv tf htf)
    simp [vehicleFactor, hfind]
  · norm_num [rawB, vehicleFactor, TRANSPORT_FACTORS, List.find?]

/-- C5 (witness): the statement at `pFull` over the initial database. -/
theorem calc_B_D_spec_witness :
    pFull.hasFullData = false ∧
    (calculation INITIAL_MATERIAL_DB pFull).B =
      round4 ((pFull.upstreamTransport.map (fun t => t.weight / 1000 * t.distance * vehicleFactor t.vehicleId)).sum) ∧
    (calculation INITIAL_MATERIAL_DB pFull).D =
      round4 (pFull.downstreamTransport.weight / 1000 * pFull.downstreamTransport.distance *
        vehicleFactor pFull.downstreamTransport.vehicleId) :=
  ⟨rfl, (calc_B_D_spec INITIAL_MATERIAL_DB pFull rfl).1, (calc_B_D_spec INITIAL_MATERIAL_DB pFull rfl).2.1⟩

/-!
C1 — the C subtotal.
-/

lemma electricityFactor_2024 : electricityFactor 2024 = 0.494 := by
  norm_num [electricityFactor, ELECTRICITY_FACTORS, List.find?, jsOr,
    show ((2023 : ℕ) == 2024) = false by decide]

/-- C1 (amended): with the override flag unset, C is the 4-digit rounding of
electricityUsage × electricityFactor(year) in `perUnit` mode and of
(electricityUsage / totalOutput') × electricityFactor(year) in
`totalAllocated` mode, where totalOutput' is totalOutput when it is nonzero
and 1 when it is zero (the code divides by `totalOutput || 1`, not by
`max(totalOutput, 1)`); the electricity factor falls back to 0.495 for a
year outside the table. -/
theorem calc_C_amended (db : List MaterialDBItem) (p : Product)
    (h : p.hasFullData = false) :
    (calculation db p).C =
      round4 ((match p.manufacturing.mode with
        | .perUnit => p.manufacturing.electricityUsage
        | .totalAllocated => p.manufacturing.electricityUsage /
            (if p.manufacturing.totalOutput = 0 then 1 else p.manufacturing.totalOutput)) *
        electricityFactor p.year) ∧
    (∀ y : ℕ, y ∉ ELECTRICITY_FACTORS.map Prod.fst → electricityFactor y = 0.495) := by
  constructor
  · cases hmode : p.manufacturing.mode <;> simp [calculation, h, rawC, hmode, jsOr]
  · intro y hy
    simp [ELECTRICITY_FACTORS] at hy
    obtain ⟨h23, h24, h25, h26⟩ := hy
    have b23 : ((2023 : ℕ) == y) = false := by simpa using (Ne.symm h23)
    have b24 : ((2024 : ℕ) == y) = false := by simpa using (Ne.symm h24)
    have b25 : ((2025 : ℕ) == y) = false := by simpa using (Ne.symm h25)
    have b26 : ((2026 : ℕ) == y) = false := by simpa using (Ne.symm h26)
    simp [electricityFactor, ELECTRICITY_FACTORS, List.find?, b23, b24, b25, b26, jsOr]

/-- C1 (witness): the amended statement at `pHalfOutput`. -/
theorem calc_C_amended_witness :
    pHalfOutput.hasFullData = false ∧
    (calculation INITIAL_MATERIAL_DB pHalfOutput).C =
      round4 ((match pHalfOutput.manufacturing.mode with
        | .perUnit => pHalfOutput.manufacturing.electricityUsage
        | .totalAllocated => pHalfOutput.manufacturing.electricityUsage /
            (if pHalfOutput.manufacturing.totalOutput = 0 then 1
             else pHalfOutput.manufacturing.totalOutput)) *
        electricityFactor pHalfOutput.year) :=
  ⟨rfl, (calc_C_amended INITIAL_MATERIAL_DB pHalfOutput rfl).1⟩

/-- C1 (counterexample): at `pHalfOutput` (totalAllocated, usage 1, total
output 1/2) the code computes C = (1 / (1/2)) × 0.494 = 0.988, while the
claim's formula (1 / max(1/2, 1)) × 0.494 rounds to 0.494. -/
theorem calc_C_claim_counterexample :
    (calculation INITIAL_MATERIAL_DB pHalfOutput).C ≠ round4 (specC pHalfOutput) := by
  norm_num [calculation, pHalfOutput, baseProduct, rawC, specC, electricityFactor_2024,
    jsOr, round4, max_def]

/-!
C7 — linearity of A in the weights.
-/

/-- C7 (amended): the unrounded A subtotal is linear in the weights:
doubling every material weight doubles `rawA`, and the reported A of the
doubled product is the 4-digit rounding of twice the unrounded A (the
reported, rounded A itself need not double exactly). -/
theorem raw_A_linear_amended (db : List MaterialDBItem) (p : Product)
    (h : p.hasFullData = false) :
    rawA db (doubleWeights p.materials) = 2 * rawA db p.materials ∧
    (calculation db { p with materials := doubleWeights p.materials }).A =
      round4 (2 * rawA db p.materials) := by
  have key : ∀ ms : List MaterialEntry, rawA db (doubleWeights ms) = 2 * rawA db ms := by
    intro ms
    rw [rawA_eq_sum, rawA_eq_sum]
    induction ms with
    | nil => simp [doubleWeights]
    | cons m ms ih =>
      simp only [doubleWeights, List.map_cons, List.map_map, List.sum_cons] at ih ⊢
      rw [ih]
      have hf : materialFactor db { m with weight := 2 * m.weight } = materialFactor db m := by
        simp [materialFactor]
      rw [hf]; ring
  exact ⟨key p.materials, by simp [calculation, h, key p.materials]⟩

/-- C7 (witness): the amended statement at `pTinyA`. -/
theorem raw_A_linear_amended_witness :
    pTinyA.hasFullData = false ∧
    rawA INITIAL_MATERIAL_DB (doubleWeights pTinyA.materials) =
      2 * rawA INITIAL_MATERIAL_DB pTinyA.materials :=
  ⟨rfl, (raw_A_linear_amended INITIAL_MATERIAL_DB pTinyA rfl).1⟩

/-- C7 (counterexample): at `pTinyA` (one entry of weight 1, custom factor
0.00006) the doubled product reports A = round4(0.00012) = 0.0001, while
twice the reported A is 2 × 0.0001 = 0.0002. -/
theorem reported_A_linear_counterexample :
    (calculation INITIAL_MATERIAL_DB { pTinyA with materials := doubleWeights pTinyA.materials }).A ≠
      2 * (calculation INITIAL_MATERIAL_DB pTinyA).A := by
  norm_num [calculation, pTinyA, baseProduct, doubleWeights, rawA, materialFactor, round4]

/-!
C10 — the transport-weight completeness check.
-/

/-- C10: for every material row m of a product, the validation entry keyed
by m.id carries diff = (sum of the weights of the upstream rows whose
materialId equals m.id) − m.weight, and marks m valid exactly when
diff ≥ −0.001. -/
theorem transport_validation_spec (p : Product) (m : MaterialEntry)
    (hm : m ∈ p.materials) :
    ∃ st : TransportStatus, (m.id, st) ∈ transportValidation p ∧
      st.diff = ((p.upstreamTransport.filter (fun t => t.materialId == some m.id)).map
        TransportEntry.weight).sum - m.weight ∧
      (st.isValid = true ↔ st.diff ≥ -0.001) := by
  refine ⟨⟨decide (transportWeightFor p m.id - m.weight ≥ -0.001),
    if transportWeightFor p m.id - m.weight < -0.001 then "運輸重量低於原料重量" else "OK",
    transportWeightFor p m.id - m.weight⟩, ?_, ?_, ?_⟩
  · exact List.mem_map_of_mem _ hm
  · simp [transportWeightFor_eq_sum]
  · simp

/-- C10 (witness): the statement at `pFull` and its material `mat1`. -/
theorem transport_validation_spec_witness :
    mat1 ∈ pFull.materials ∧
    ∃ st : TransportStatus, (mat1.id, st) ∈ transportValidation pFull ∧
      st.diff = ((pFull.upstreamTransport.filter (fun t => t.materialId == some mat1.id)).map
        TransportEntry.weight).sum - mat1.weight ∧
      (st.isValid = true ↔ st.diff ≥ -0.001) :=
  ⟨by simp [pFull], transport_validation_spec pFull mat1 (by simp [pFull])⟩

/-!
C6 — the material-reference invariant.
-/

lemma refValueOK_true_iff (ms : List MaterialEntry) (v : Option ℕ) :
    refValueOK ms v = true ↔ ∀ mid, v = some mid → ∃ m ∈ ms, m.id = mid := by
  cases v <;> simp [refValueOK, List.any_eq_true]

lemma refValueOK_append (ms extra : List MaterialEntry) (v : Option ℕ)
    (h : refValueOK ms v = true) : refValueOK (ms ++ extra) v = true := by
  cases v with
  | none => simp [refValueOK]
  | some mid =>
    simp only [refValueOK, List.any_eq_true] at h ⊢
    obtain ⟨m, hm, he⟩ := h
    exact ⟨m, List.mem_append_left _ hm, he⟩

lemma refOK_true_iff (p : Product) :
    refOK p = true ↔ ∀ t ∈ p.upstreamTransport, refValueOK p.materials t.materialId = true := by
  simp [refOK, List.all_eq_true]

lemma mem_eraseIdx_of_ne {α : Type} : ∀ (l : List α) (i : ℕ) (a b : α),
    a ∈ l → l[i]? = some b → a ≠ b → a ∈ l.eraseIdx i
  | [], i, a, b => by intro _ hget _; simp at hget
  | x :: xs, 0, a, b => by
    intro hmem hget hne
    have hxb : x = b := by simpa using hget
    subst hxb
    rcases List.mem_cons.1 hmem with h | h
    · exact absurd h hne
    · simpa [List.eraseIdx] using h
  | x :: xs, n+1, a, b => by
    intro hmem hget hne
    have hget' : xs[n]? = some b := by simpa using hget
    rw [List.eraseIdx_cons_succ]
    rcases List.mem_cons.1 hmem with h | h
    · exact h ▸ List.mem_cons_self x _
    · exact List.mem_cons_of_mem x (mem_eraseIdx_of_ne xs n a b h hget' hne)

lemma mem_of_mem_eraseIdx {α : Type} : ∀ (l : List α) (i : ℕ) (a : α),
    a ∈ l.eraseIdx i → a ∈ l
  | [], _, a => by simp
  | x :: xs, 0, a => by
    intro h
    exact List.mem_cons_of_mem x (by simpa [List.eraseIdx] using h)
  | x :: xs, n+1, a => by
    intro h
    rw [List.eraseIdx_cons_succ] at h
    rcases List.mem_cons.1 h with h | h
    · exact h ▸ List.mem_cons_self x _
    · exact List.mem_cons_of_mem x (mem_of_mem_eraseIdx xs n a h)

lemma mem_updateAt {α : Type} (f : α → α) : ∀ (i : ℕ) (l : List α) (a : α),
    a ∈ updateAt i f l → a ∈ l ∨ ∃ b ∈ l, a = f b
  | _, [], a => by simp [updateAt]
  | 0, x :: xs, a => by
    intro h
    rcases List.mem_cons.1 h with h | h
    · exact Or.inr ⟨x, List.mem_cons_self x xs, h⟩
    · exact Or.inl (List.mem_cons_of_mem x h)
  | n+1, x :: xs, a => by
    intro h
    rcases List.mem_cons.1 h with h | h
    · exact Or.inl (h ▸ List.mem_cons_self x xs)
    · rcases mem_updateAt f n xs a h with h' | ⟨b, hb, he⟩
      · exact Or.inl (List.mem_cons_of_mem x h')
      · exact Or.inr ⟨b, List.mem_cons_of_mem x hb, he⟩

lemma refOK_step (p : Product) (op : ProductOp) (hv : validOp p op = true)
    (h : refOK p = true) : refOK (step p op) = true := by
  rw [refOK_true_iff] at h ⊢
  cases op with
  | addMaterial newId =>
    intro t ht
    simp only [step] at ht ⊢
    exact refValueOK_append _ _ _ (h t ht)
  | deleteMaterial idx =>
    cases hm : p.materials[idx]? with
    | none =>
      intro t ht
      simp only [step, hm] at ht ⊢
      exact h t ht
    | some m =>
      intro t ht
      simp only [step, hm] at ht ⊢
      have htmem : t ∈ p.upstreamTransport := List.mem_of_mem_filter ht
      have hne : (t.materialId != some m.id) = true := (List.mem_filter.1 ht).2
      rw [refValueOK_true_iff]
      intro mid hmid
      obtain ⟨mat, hmat, hid⟩ := (refValueOK_true_iff _ _).1 (h t htmem) mid hmid
      have hmidne : mid ≠ m.id := by
        intro hcon
        rw [hmid, hcon] at hne
        simp at hne
      have hmatne : mat ≠ m := fun hconeq => hmidne (by rw [← hid, hconeq])
      exact ⟨mat, mem_eraseIdx_of_ne p.materials idx mat m hmat hm hmatne, hid⟩
  | addTransport newId =>
    intro t ht
    simp only [step] at ht ⊢
    rcases List.mem_append.1 ht with h1 | h1
    · exact h t h1
    · have he : t = ⟨newId, p.materials.head?.map MaterialEntry.id, 0, 0, "t1"⟩ := by
        simpa using h1
      subst he
      cases hh : p.materials with
      | nil => simp [refValueOK, hh]
      | cons m ms => simp [refValueOK, hh]
  | deleteTransport idx =>
    intro t ht
    simp only [step] at ht ⊢
    exact h t (mem_of_mem_eraseIdx _ _ _ ht)
  | setTransportMaterial idx v =>
    intro t ht
    simp only [step] at ht ⊢
    rcases mem_updateAt _ idx _ t ht with h1 | ⟨b, hb, he⟩
    · exact h t h1
    · subst he
      have hv' : refValueOK p.materials v = true := by simpa [validOp] using hv
      exact hv'
  | setTransportWeight idx w =>
    intro t ht
    simp only [step] at ht ⊢
    rcases mem_updateAt _ idx _ t ht with h1 | ⟨b, hb, he⟩
    · exact h t h1
    · subst he; exact h b hb
  | setTransportDistance idx d =>
    intro t ht
    simp only [step] at ht ⊢
    rcases mem_updateAt _ idx _ t ht with h1 | ⟨b, hb, he⟩
    · exact h t h1
    · subst he; exact h b hb
  | setTransportVehicle idx v =>
    intro t ht
    simp only [step] at ht ⊢
    rcases mem_updateAt _ idx _ t ht with h1 | ⟨b, hb, he⟩
    · exact h t h1
    · subst he; exact h b hb

/-- C6: through any valid sequence of material and transport operations,
every transport row's material reference stays either unset or equal to the
id of a material present in the same product; and deleting a material also
deletes every transport row referencing it. -/
theorem upstream_ref_invariant :
    (∀ (p : Product) (ops : List ProductOp), validOps p ops = true → refOK p = true →
      refOK (applyOps p ops) = true) ∧
    (∀ (p : Product) (idx : ℕ) (m : MaterialEntry), p.materials[idx]? = some m →
      ∀ t ∈ (step p (.deleteMaterial idx)).upstreamTransport, t.materialId ≠ some m.id) := by
  constructor
  · intro p ops
    induction ops generalizing p with
    | nil => intro _ h; simpa [applyOps] using h
    | cons op ops ih =>
      intro hv h
      simp only [validOps, Bool.and_eq_true] at hv
      simp only [applyOps]
      exact ih (step p op) hv.2 (refOK_step p op hv.1 h)
  · intro p idx m hm t ht
    simp only [step, hm] at ht
    have hb : (t.materialId != some m.id) = true := (List.mem_filter.1 ht).2
    simpa using hb

/-- C6 (witness): the invariant along the concrete run `ops6` from `p6`. -/
theorem upstream_ref_invariant_witness :
    validOps p6 ops6 = true ∧ refOK p6 = true ∧ refOK (applyOps p6 ops6) = true :=
  ⟨by decide, by decide, upstream_ref_invariant.1 p6 ops6 (by decide) (by decide)⟩

/-!
C9 — the contract list never becomes empty.
-/

lemma filter_ne_nil_of_two_nodup (l : List Contract) (cid : ℕ)
    (h2 : 2 ≤ l.length) (hnd : (l.map Contract.id).Nodup) :
    l.filter (fun c => c.id != cid) ≠ [] := by
  cases l with
  | nil => simp at h2
  | cons a l1 =>
    cases l1 with
    | nil => simp at h2
    | cons b rest =>
      intro hnil
      rw [List.filter_eq_nil_iff] at hnil
      have ha : a.id = cid := by simpa using hnil a (by simp)
      have hb : b.id = cid := by simpa using hnil b (by simp)
      have hab : a.id ≠ b.id := by
        simp only [List.map_cons, List.nodup_cons, List.mem_cons] at hnd
        exact fun hc => hnd.1 (Or.inl hc)
      exact hab (ha.trans hb.symm)

lemma contractsOK_step (s : AppState) (op : ContractOp)
    (hv : validContractOp s op) (h : contractsOK s) : contractsOK (stepContract s op) := by
  obtain ⟨hne, hnd⟩ := h
  cases op with
  | add newId =>
    constructor
    · simp [stepContract, addContract]
    · simp only [stepContract, addContract, List.map_append]
      rw [List.nodup_append]
      refine ⟨hnd, List.nodup_singleton _, ?_⟩
      intro x hx hy
      have hxn : x = newId := by simpa using hy
      subst hxn
      exact (by simpa [validContractOp] using hv : x ∉ s.contracts.map Contract.id) hx
  | delete cid =>
    by_cases hlen : s.contracts.length ≤ 1
    · simp only [stepContract, deleteContract, if_pos hlen]
      exact ⟨hne, hnd⟩
    · have h2 : 2 ≤ s.contracts.length := by omega
      have hfil : s.contracts.filter (fun c => c.id != cid) ≠ [] :=
        filter_ne_nil_of_two_nodup _ _ h2 hnd
      have hnd' : ((s.contracts.filter (fun c => c.id != cid)).map Contract.id).Nodup :=
        ((List.filter_sublist _).map Contract.id).nodup hnd
      simp only [stepContract, deleteContract, if_neg hlen]
      split
      · exact ⟨hfil, hnd'⟩
      · exact ⟨hfil, hnd'⟩

/-- C9: deleting a contract leaves the list unchanged when only one contract
exists; along any valid run of contract additions and deletions the list
stays nonempty (with pairwise distinct ids); and a successful deletion of
the active contract makes the first remaining contract active. -/
theorem contract_list_nonempty :
    (∀ (s : AppState) (cid : ℕ), s.contracts.length = 1 → deleteContract s cid = s) ∧
    (∀ (s : AppState) (ops : List ContractOp), contractsOK s → validContractOps s ops →
      contractsOK (applyContractOps s ops)) ∧
    (∀ (s : AppState) (cid : ℕ), 2 ≤ s.contracts.length →
      (s.contracts.map Contract.id).Nodup → s.activeContractId = cid →
      ∃ c, (deleteContract s cid).contracts.head? = some c ∧
        (deleteContract s cid).activeContractId = c.id) := by
  refine ⟨?_, ?_, ?_⟩
  · intro s cid h
    simp [deleteContract, h]
  · intro s ops
    induction ops generalizing s with
    | nil => intro h _; simpa [applyContractOps] using h
    | cons op ops ih =>
      intro h hv
      simp only [applyContractOps]
      exact ih (stepContract s op) (contractsOK_step s op hv.1 h) hv.2
  · intro s cid h2 hnd hact
    have hlen : ¬ s.contracts.length ≤ 1 := by omega
    have hfil := filter_ne_nil_of_two_nodup s.contracts cid h2 hnd
    obtain ⟨c, hc⟩ : ∃ c, (s.contracts.filter (fun c => c.id != cid)).head? = some c := by
      cases hcase : s.contracts.filter (fun c => c.id != cid) with
      | nil => exact absurd hcase hfil
      | cons a l => exact ⟨a, rfl⟩
    exact ⟨c, by simp [deleteContract, if_neg hlen, hact, hc],
      by simp [deleteContract, if_neg hlen, hact, hc]⟩

/-- C9 (witness): the single-contract guard at the initial state `s9`, the
invariant along `ops9`, and the active-contract update at `sTwo`. -/
theorem contract_list_nonempty_witness :
    s9.contracts.length = 1 ∧ deleteContract s9 1 = s9 ∧
    contractsOK (applyContractOps s9 ops9) ∧
    (∃ c, (deleteContract sTwo 1).contracts.head? = some c ∧
      (deleteContract sTwo 1).activeContractId = c.id) :=
  ⟨rfl, contract_list_nonempty.1 s9 1 rfl,
   contract_list_nonempty.2.1 s9 ops9 ⟨by simp [s9], by decide⟩ (by decide),
   contract_list_nonempty.2.2 sTwo 1 (by decide) (by decide) rfl⟩
